import Mathlib

/-!
Shallow embedding of the ch20 multi-threaded web server
(`src/main.rs` and `src/lib.rs` of the `hello` crate).

Part 1 models the per-connection logic of `main.rs`
(`handle_connection`, `send_response`): a connection is the list of
results the `lines()` iterator would yield, and a panicking `unwrap`
is an `Except.error`.

Part 2 models `ThreadPool::new` and `ThreadPool::execute` of `lib.rs`.

Part 3 is a small-step transition system for the worker loop of
`Worker::new` (`lib.rs`): the shared `Arc<Mutex<mpsc::Receiver<Job>>>`
becomes a queue of job ids plus a `locked` phase that a worker holds
from `receiver.lock()` until `recv()` returns; the `MutexGuard` is a
temporary dropped at the end of the `let` statement, so the lock is
released before `job()` runs, which the `recv` step reflects.
-/

namespace Hello

/-- One result of the `lines()` iterator over the connection's
`BufReader`: a successfully read line, or an I/O / invalid-UTF-8
error (`std::io::Result<String>` being `Err`). -/
inductive LineRead where
  | line (s : String)
  | ioError
  deriving DecidableEq, Repr

/-- The ways the connection-handling code can panic: `result.unwrap()`
on an errored line read, `&http_request[0]` on an empty vector,
`fs::read_to_string(..).unwrap()` on a missing page file,
`stream.write_all(..).unwrap()` on a failed write, and the
`assert!(size > 0)` / `sender.send(job).unwrap()` panics of `lib.rs`. -/
inductive Panic where
  | unwrapErr
  | indexOutOfBounds
  | fsReadFailed
  | writeFailed
  | assertFailed
  | sendFailed
  deriving DecidableEq, Repr

/-- `buf_reader.lines().map(|result| result.unwrap()).take_while(|line| !line.is_empty()).collect()`:
the iterator is driven lazily, so each element is unwrapped only until
the first empty line (which is itself consumed); elements after the
blank line are never touched.  An `Err` element reached before the
blank line panics the whole collect. -/
def collectRequest : List LineRead → Except Panic (List String)
  | [] => .ok []
  | .ioError :: _ => .error .unwrapErr
  | .line s :: rest =>
    if s = "" then .ok []
    else
      match collectRequest rest with
      | .error p => .error p
      | .ok tail => .ok (s :: tail)

/-- The arguments `handle_connection` passes to `send_response` for one
request line, together with the artificial delay (`thread::sleep`)
taken before responding. -/
structure HttpReply where
  code : Nat
  reason : String
  filename : String
  delaySecs : Nat
  deriving DecidableEq, Repr

/-- The `match &request_line[..]` of `handle_connection`: exact string
match on the request line. -/
def classify (request_line : String) : HttpReply :=
  if request_line = "GET / HTTP/1.1" then
    { code := 200, reason := "OK", filename := "hello.html", delaySecs := 0 }
  else if request_line = "GET /sleep HTTP/1.1" then
    { code := 200, reason := "OK", filename := "hello.html", delaySecs := 5 }
  else
    { code := 404, reason := "NOT FOUND", filename := "404.html", delaySecs := 0 }

/-- `send_response(stream, code, reason, filename)`: read the page file
(panics if that fails), format the response with `length` the byte
length of the contents (`contents.len()` on a Rust `String` counts
UTF-8 bytes), and write it (panics if the write fails).  `fsRead`
models the filesystem, `writeOk` models whether `write_all` succeeds
for a given payload. -/
def send_response (fsRead : String → Option String) (writeOk : String → Bool)
    (code : Nat) (reason : String) (filename : String) : Except Panic String :=
  match fsRead filename with
  | none => .error .fsReadFailed
  | some contents =>
      let length := contents.utf8ByteSize
      let response := "HTTP/1.1 " ++ toString code ++ " " ++ reason ++
        "\x0d\x0aContent-Length: " ++ toString length ++ "\x0d\x0a\x0d\x0a" ++ contents
      if writeOk response then .ok response else .error .writeFailed

/-- `handle_connection(stream)`: collect the request's lines up to the
blank line, take `&http_request[0]` (panicking when the vector is
empty), classify the request line, and send the response.  The result
is the pair (delay in seconds slept before responding, bytes written
to the stream). -/
def handle_connection (fsRead : String → Option String) (writeOk : String → Bool)
    (input : List LineRead) : Except Panic (Nat × String) :=
  match collectRequest input with
  | .error p => .error p
  | .ok [] => .error .indexOutOfBounds
  | .ok (request_line :: _) =>
      match send_response fsRead writeOk (classify request_line).code
          (classify request_line).reason (classify request_line).filename with
      | .error p => .error p
      | .ok wire => .ok ((classify request_line).delaySecs, wire)

/-- Fate of the worker thread that runs a job: the loop body of
`Worker::new` is `let job = ...; job();` with no `catch_unwind`, so a
panic inside the job unwinds and terminates the thread. -/
inductive WorkerFate where
  | alive
  | crashed (p : Panic)
  deriving DecidableEq, Repr

/-- Running one job on a worker thread: a normal return leaves the
thread alive and looping; a panic crashes it. -/
def worker_runs {α : Type} : Except Panic α → WorkerFate
  | .ok _ => .alive
  | .error p => .crashed p

/-- A sample filesystem for concrete evaluations: both page files
present with known contents. -/
def samplePages : String → Option String :=
  fun f =>
    if f = "hello.html" then some "<p>Hi from Rust</p>"
    else if f = "404.html" then some "<p>Oops!</p>"
    else none

example : collectRequest [.line "GET / HTTP/1.1", .line ""] = .ok ["GET / HTTP/1.1"] := rfl
example : collectRequest [.ioError] = .error .unwrapErr := rfl
example : collectRequest [] = .ok [] := rfl
example :
    handle_connection samplePages (fun _ => true) [.line "GET / HTTP/1.1", .line ""] =
      .ok (0, "HTTP/1.1 200 OK\x0d\x0aContent-Length: 19\x0d\x0a\x0d\x0a<p>Hi from Rust</p>") := rfl
example :
    handle_connection samplePages (fun _ => true) [.line "GET /missing HTTP/1.1", .line ""] =
      .ok (0, "HTTP/1.1 404 NOT FOUND\x0d\x0aContent-Length: 12\x0d\x0a\x0d\x0a<p>Oops!</p>") := rfl
example : handle_connection samplePages (fun _ => true) [] = .error .indexOutOfBounds := rfl

/-- One worker handle as built by `ThreadPool::new`'s loop
`workers.push(Worker::new(id, Arc::clone(&receiver)))`: its integer id
and the id of the channel whose receive side it shares. -/
structure WorkerHandle where
  id : Nat
  receiver : Nat
  deriving DecidableEq, Repr

/-- The `ThreadPool` struct: the workers and the producer handle
(identified by the id of the channel it sends into). -/
structure PoolHandle where
  workers : List WorkerHandle
  senderChannel : Nat
  deriving DecidableEq, Repr

/-- `ThreadPool::new(size)`: `assert!(size > 0)` runs before
`mpsc::channel()` and before the worker loop, so `size == 0` panics
with no channel created and no worker spawned.  Otherwise one channel
(id 0) is created and workers with ids `0..size` all clone its
receive side. -/
def ThreadPool.new (size : Nat) : Except Panic PoolHandle :=
  if size > 0 then
    .ok { workers := (List.range size).map (fun id => { id := id, receiver := 0 }),
          senderChannel := 0 }
  else .error .assertFailed

/-- The `mpsc` channel as the producer sees it: the queued jobs (by id,
in FIFO order) and whether the receive side still exists. -/
structure ChannelState where
  queue : List Nat
  receiverAlive : Bool
  deriving DecidableEq, Repr

/-- `ThreadPool::execute(f)`: box the closure and
`self.sender.send(job).unwrap()`.  `mpsc::Sender::send` only fails when
the receiver has been dropped, in which case the `unwrap` panics;
otherwise the job is appended to the channel's queue and `execute`
returns without running it. -/
def ThreadPool.execute (ch : ChannelState) (job : Nat) : Except Panic ChannelState :=
  if ch.receiverAlive then .ok { ch with queue := ch.queue ++ [job] }
  else .error .sendFailed

/-- Phase of one worker thread inside the loop of `Worker::new`:
`idle` just before `receiver.lock()`, `locked` while holding the mutex
blocked in `recv()`, `running j` while `job()` executes (the
`MutexGuard` temporary was dropped at the end of the `let` statement,
before the call), `crashed` after an uncaught panic unwound the
thread. -/
inductive Phase where
  | idle
  | locked
  | running (job : Nat)
  | crashed
  deriving DecidableEq, Repr

/-- Global state of the pool: the channel's queue of pending job ids,
the phase of each worker thread (worker = list index), the producer's
next fresh job id (ids `0, 1, 2, ...` in submission order), the jobs
whose execution completed, and the jobs lost to a worker crash. -/
structure Sys where
  queue : List Nat
  workers : List Phase
  nextId : Nat
  executed : List Nat
  lost : List Nat
  deriving DecidableEq, Repr

/-- The pool right after `ThreadPool::new(n)`: empty channel, `n` idle
workers, nothing submitted. -/
def Sys.start (n : Nat) : Sys :=
  { queue := [], workers := List.replicate n Phase.idle, nextId := 0,
    executed := [], lost := [] }

/-- Interleaved small-step semantics of the pool:
  * `submit`: `ThreadPool::execute` enqueues a fresh job;
  * `lock`: an idle worker's `receiver.lock()` returns — only possible
    while no other worker holds the mutex;
  * `recv`: `recv()` returns the queue's head to the lock holder and
    the guard is dropped (end of the `let` statement), so the worker
    starts running the job with the mutex free;
  * `finish`: `job()` returns and the worker loops back to idle;
  * `crash`: `job()` panics and the worker thread dies, losing the job.
A worker whose `recv()` finds the queue empty simply stays in `locked`,
holding the mutex — exactly the blocking behavior of the source. -/
inductive Step : Sys → Sys → Prop where
  | submit (s : Sys) :
      Step s { s with queue := s.queue ++ [s.nextId], nextId := s.nextId + 1 }
  | lock (s : Sys) (w : Nat) (hw : s.workers.get? w = some .idle)
      (hfree : Phase.locked ∉ s.workers) :
      Step s { s with workers := s.workers.set w .locked }
  | recv (s : Sys) (w j : Nat) (rest : List Nat)
      (hw : s.workers.get? w = some .locked) (hq : s.queue = j :: rest) :
      Step s { s with queue := rest, workers := s.workers.set w (.running j) }
  | finish (s : Sys) (w j : Nat) (hw : s.workers.get? w = some (.running j)) :
      Step s { s with workers := s.workers.set w .idle, executed := s.executed ++ [j] }
  | crash (s : Sys) (w j : Nat) (hw : s.workers.get? w = some (.running j)) :
      Step s { s with workers := s.workers.set w .crashed, lost := s.lost ++ [j] }

/-- Reachability: zero or more interleaved steps. -/
def Reach (s s' : Sys) : Prop := Relation.ReflTransGen Step s s'

/-- How many workers are currently executing job `id`. -/
def runCount (s : Sys) (id : Nat) : Nat :=
  s.workers.countP (fun ph => decide (ph = Phase.running id))

/-- Whether a worker phase is the execution of some job. -/
def Phase.isBusy : Phase → Bool
  | .running _ => true
  | _ => false

/-- How many workers are currently executing some job. -/
def busyCount (s : Sys) : Nat :=
  s.workers.countP Phase.isBusy

/-- Total number of occurrences of job `id` anywhere in the system:
still queued, being executed, finished, or lost in a crash. -/
def occ (s : Sys) (id : Nat) : Nat :=
  s.queue.count id + runCount s id + s.executed.count id + s.lost.count id

/-- Some worker thread has not crashed ("a consumer remains alive"). -/
def hasLiveWorker (s : Sys) : Prop :=
  ∃ w ph, s.workers.get? w = some ph ∧ ph ≠ Phase.crashed

/-- The state in which all `n` workers run simultaneously, worker `i`
executing job `i`: target of the saturation scenario. -/
def allRunning (n : Nat) : Sys :=
  { queue := [], workers := (List.range n).map (fun i => Phase.running i),
    nextId := n, executed := [], lost := [] }

/-! Helper lemmas about `List.get?`, `List.set` and `List.countP`. -/

theorem get?_lt {α : Type} {l : List α} {i : Nat} {a : α}
    (h : l.get? i = some a) : i < l.length := by
  induction l generalizing i with
  | nil => simp [List.get?] at h
  | cons x xs ih =>
      cases i with
      | zero => simp
      | succ n => simpa [Nat.succ_lt_succ_iff] using ih h

theorem get?_set_self {α : Type} {l : List α} {i : Nat} {a : α} (b : α)
    (h : l.get? i = some a) : (l.set i b).get? i = some b := by
  induction l generalizing i with
  | nil => simp [List.get?] at h
  | cons x xs ih =>
      cases i with
      | zero => rfl
      | succ n => simpa using ih h

theorem get?_set_other {α : Type} (l : List α) (i j : Nat) (b : α)
    (h : i ≠ j) : (l.set i b).get? j = l.get? j := by
  induction l generalizing i j with
  | nil => simp
  | cons x xs ih =>
      cases i with
      | zero =>
          cases j with
          | zero => exact absurd rfl h
          | succ m => rfl
      | succ n =>
          cases j with
          | zero => rfl
          | succ m => simpa using ih n m (by omega)

theorem mem_of_get?_eq_some {α : Type} {l : List α} {i : Nat} {a : α}
    (h : l.get? i = some a) : a ∈ l := by
  induction l generalizing i with
  | nil => simp [List.get?] at h
  | cons x xs ih =>
      cases i with
      | zero => simp [List.get?] at h; simp [h]
      | succ n => exact List.mem_cons_of_mem x (ih h)

theorem countP_set {α : Type} (p : α → Bool) {l : List α} {i : Nat} {a : α} (b : α)
    (h : l.get? i = some a) :
    (l.set i b).countP p + (if p a then 1 else 0) =
      l.countP p + (if p b then 1 else 0) := by
  induction l generalizing i with
  | nil => simp [List.get?] at h
  | cons x xs ih =>
      cases i with
      | zero =>
          simp only [List.get?] at h
          cases h
          simp only [List.set, List.countP_cons]
          omega
      | succ n =>
          simp only [List.set, List.countP_cons]
          have := ih h
          omega

/-! The conservation invariant: every submitted job id occurs exactly
once in the system (queued, being run, finished, or lost), and
unsubmitted ids occur nowhere. -/

/-- The invariant of the pool: job ids below `nextId` are exactly the
submitted ones, and each occurs exactly once. -/
def JobInv (s : Sys) : Prop :=
  ∀ id, occ s id = if id < s.nextId then 1 else 0

theorem jobInv_start (n : Nat) : JobInv (Sys.start n) := by
  intro id
  simp [JobInv, Sys.start, occ, runCount, List.countP_eq_zero, List.mem_replicate]

theorem jobInv_step {s s' : Sys} (h : Step s s') (hs : JobInv s) : JobInv s' := by
  intro id
  have hid := hs id
  cases h with
  | submit =>
      simp only [occ, runCount, List.count_append] at hid ⊢
      have hone : List.count id [s.nextId] = if s.nextId = id then 1 else 0 := by
        simp [List.count_cons]
      rw [hone]
      split_ifs at hid ⊢ <;> omega
  | lock w hw hfree =>
      have hset := countP_set (fun ph => decide (ph = Phase.running id)) Phase.locked hw
      simp only [decide_eq_true_eq, reduceCtorEq, if_false] at hset
      simp only [occ, runCount] at hid ⊢
      split_ifs at hid ⊢ <;> omega
  | recv w j rest hw hq =>
      have hset := countP_set (fun ph => decide (ph = Phase.running id)) (Phase.running j) hw
      simp only [decide_eq_true_eq, reduceCtorEq, if_false, Phase.running.injEq] at hset
      have hcnt : List.count id (j :: rest) = List.count id rest + if j = id then 1 else 0 := by
        simp [List.count_cons]
      simp only [occ, runCount, hq, hcnt] at hid ⊢
      split_ifs at hid hset ⊢ <;> omega
  | finish w j hw =>
      have hset := countP_set (fun ph => decide (ph = Phase.running id)) Phase.idle hw
      simp only [decide_eq_true_eq, reduceCtorEq, if_false, Phase.running.injEq] at hset
      have hone : List.count id [j] = if j = id then 1 else 0 := by
        simp [List.count_cons]
      simp only [occ, runCount, List.count_append, hone] at hid ⊢
      split_ifs at hid hset ⊢ <;> omega
  | crash w j hw =>
      have hset := countP_set (fun ph => decide (ph = Phase.running id)) Phase.crashed hw
      simp only [decide_eq_true_eq, reduceCtorEq, if_false, Phase.running.injEq] at hset
      have hone : List.count id [j] = if j = id then 1 else 0 := by
        simp [List.count_cons]
      simp only [occ, runCount, List.count_append, hone] at hid ⊢
      split_ifs at hid hset ⊢ <;> omega

theorem jobInv_reach {s s' : Sys} (h : Reach s s') (hs : JobInv s) : JobInv s' := by
  induction h with
  | refl => exact hs
  | tail _ step ih => exact jobInv_step step ih

theorem jobInv_of_start {n : Nat} {s : Sys} (h : Reach (Sys.start n) s) : JobInv s :=
  jobInv_reach h (jobInv_start n)

/-- The worker count never changes: threads are spawned only at
construction. -/
theorem workers_length_step {s s' : Sys} (h : Step s s') :
    s'.workers.length = s.workers.length := by
  cases h <;> simp [List.length_set]

theorem workers_length_reach {s s' : Sys} (h : Reach s s') :
    s'.workers.length = s.workers.length := by
  induction h with
  | refl => rfl
  | tail _ step ih => rw [workers_length_step step, ih]

theorem get?_of_mem {α : Type} {l : List α} {a : α} (h : a ∈ l) :
    ∃ n, l.get? n = some a := by
  induction l with
  | nil => cases h
  | cons x xs ih =>
      rcases List.mem_cons.mp h with h | h
      · exact ⟨0, by simp [h]⟩
      · obtain ⟨n, hn⟩ := ih h
        exact ⟨n + 1, by simpa using hn⟩

theorem mem_set_elim {α : Type} {l : List α} {i : Nat} {a b : α}
    (h : b ∈ l.set i a) : b ∈ l ∨ b = a := by
  induction l generalizing i with
  | nil => cases h
  | cons x xs ih =>
      cases i with
      | zero =>
          rcases List.mem_cons.mp h with h | h
          · exact Or.inr h
          · exact Or.inl (List.mem_cons_of_mem x h)
      | succ n =>
          rcases List.mem_cons.mp h with h | h
          · exact Or.inl (by simp [h])
          · rcases ih h with h | h
            · exact Or.inl (List.mem_cons_of_mem x h)
            · exact Or.inr h

/-- Completed jobs are never un-completed by any step. -/
theorem executed_mono_step {s s' : Sys} (h : Step s s') : s.executed ⊆ s'.executed := by
  cases h with
  | submit => exact fun a ha => ha
  | lock w hw hfree => exact fun a ha => ha
  | recv w j rest hw hq => exact fun a ha => ha
  | finish w j hw => exact fun a ha => List.mem_append_left _ ha
  | crash w j hw => exact fun a ha => ha

theorem executed_mono {s s' : Sys} (h : Reach s s') : s.executed ⊆ s'.executed := by
  induction h with
  | refl => exact fun a ha => ha
  | tail _ step ih => exact fun a ha => executed_mono_step step (ih ha)

/-- From any state with a live (non-crashed) worker, some worker can be
driven to hold the channel lock without touching the queue. -/
theorem step_to_locked {s : Sys} (hl : hasLiveWorker s) :
    ∃ s' v, Reach s s' ∧ s'.queue = s.queue ∧
      s'.workers.get? v = some Phase.locked := by
  by_cases hex : ∃ v, s.workers.get? v = some Phase.locked
  · obtain ⟨v, hv⟩ := hex
    exact ⟨s, v, Relation.ReflTransGen.refl, rfl, hv⟩
  · have hfree : Phase.locked ∉ s.workers := by
      intro hmem
      exact hex (get?_of_mem hmem)
    obtain ⟨w, ph, hw, hph⟩ := hl
    cases ph with
    | idle =>
        exact ⟨_, w, Relation.ReflTransGen.single (Step.lock s w hw hfree), rfl,
          get?_set_self Phase.locked hw⟩
    | locked => exact absurd ⟨w, hw⟩ hex
    | running j =>
        have step1 := Step.finish s w j hw
        have hw1 : (s.workers.set w Phase.idle).get? w = some Phase.idle :=
          get?_set_self Phase.idle hw
        have hfree1 : Phase.locked ∉ s.workers.set w Phase.idle := by
          intro hmem
          rcases mem_set_elim hmem with hmem | hmem
          · exact hfree hmem
          · cases hmem
        have step2 := Step.lock
          { s with workers := s.workers.set w Phase.idle,
                   executed := s.executed ++ [j] } w hw1 hfree1
        exact ⟨_, w, (Relation.ReflTransGen.single step1).tail step2, rfl,
          get?_set_self Phase.locked hw1⟩
    | crashed => exact absurd rfl hph

/-- A worker holding the lock delivers the queue's head: `recv` hands it
exactly that item and `finish` completes it, with the worker idle
again afterwards. -/
theorem pop_head {s : Sys} {v h : Nat} {rest : List Nat}
    (hv : s.workers.get? v = some Phase.locked) (hq : s.queue = h :: rest) :
    ∃ s', Reach s s' ∧ s'.queue = rest ∧
      s'.executed = s.executed ++ [h] ∧
      s'.workers = s.workers.set v Phase.idle := by
  have step1 := Step.recv s v h rest hv hq
  have hv1 : (s.workers.set v (Phase.running h)).get? v = some (Phase.running h) :=
    get?_set_self (Phase.running h) hv
  have step2 := Step.finish
    { s with queue := rest, workers := s.workers.set v (Phase.running h) } v h hv1
  exact ⟨_, (Relation.ReflTransGen.single step1).tail step2, rfl, rfl,
    by simp [List.set_set]⟩

/-- One delivery round: with a live worker and a nonempty queue, the
head gets executed, the queue shrinks by one, and no completed job is
lost. -/
theorem delivery_round {s : Sys} {h : Nat} {t : List Nat}
    (hl : hasLiveWorker s) (hq : s.queue = h :: t) :
    ∃ s', Reach s s' ∧ s'.queue = t ∧ h ∈ s'.executed ∧
      s.executed ⊆ s'.executed ∧ hasLiveWorker s' := by
  obtain ⟨s1, v, hr1, hq1, hv⟩ := step_to_locked hl
  obtain ⟨s2, hr2, hq2, he2, hwk2⟩ := pop_head hv (hq1.trans hq)
  refine ⟨s2, hr1.trans hr2, hq2, ?_, ?_, ?_⟩
  · rw [he2]
    exact List.mem_append_right _ (List.mem_singleton.mpr rfl)
  · intro a ha
    exact executed_mono (hr1.trans hr2) ha
  · refine ⟨v, Phase.idle, ?_, by simp⟩
    rw [hwk2]
    exact get?_set_self Phase.idle hv

/-- Every queued job is eventually executed while a live worker
remains: by induction on its position, each round pops one item ahead
of it. -/
theorem delivered_of_queued :
    ∀ (k : Nat) (s : Sys) (id : Nat), hasLiveWorker s → s.queue.get? k = some id →
      ∃ s', Reach s s' ∧ id ∈ s'.executed := by
  intro k
  induction k with
  | zero =>
      intro s id hl hq
      cases hqe : s.queue with
      | nil => rw [hqe] at hq; simp [List.get?] at hq
      | cons h t =>
          rw [hqe] at hq
          obtain rfl : h = id := by simpa [List.get?] using hq
          obtain ⟨s', hr, _, hmem, _, _⟩ := delivery_round hl hqe
          exact ⟨s', hr, hmem⟩
  | succ k ih =>
      intro s id hl hq
      cases hqe : s.queue with
      | nil => rw [hqe] at hq; simp [List.get?] at hq
      | cons h t =>
          rw [hqe] at hq
          have hq' : t.get? k = some id := hq
          obtain ⟨s1, hr1, hq1, _, _, hl1⟩ := delivery_round hl hqe
          obtain ⟨s', hr2, hmem⟩ := ih s1 id hl1 (by rw [hq1]; exact hq')
          exact ⟨s', hr1.trans hr2, hmem⟩

theorem get?_append_len {α : Type} (l₁ l₂ : List α) :
    (l₁ ++ l₂).get? l₁.length = l₂.get? 0 := by
  induction l₁ with
  | nil => rfl
  | cons x xs ih => simpa using ih

theorem set_append_len {α : Type} (l₁ l₂ : List α) (b : α) :
    (l₁ ++ l₂).set l₁.length b = l₁ ++ l₂.set 0 b := by
  induction l₁ with
  | nil => rfl
  | cons x xs ih => simp [List.set, ih]

/-- The saturation scenario after `n` submissions and `m` claim
rounds: jobs `m..n` still queued, workers `0..m` each running their
job, workers `m..n` still idle. -/
def satState (n m : Nat) : Sys :=
  { queue := List.range' m (n - m),
    workers := (List.range m).map (fun i => Phase.running i) ++
      List.replicate (n - m) Phase.idle,
    nextId := n, executed := [], lost := [] }

/-- Submitting `n` jobs to the fresh pool yields the saturation start
state. -/
theorem reach_submits (n : Nat) : Reach (Sys.start n) (satState n 0) := by
  have key : ∀ k, Reach (Sys.start n)
      { queue := List.range' 0 k, workers := List.replicate n Phase.idle,
        nextId := k, executed := [], lost := [] } := by
    intro k
    induction k with
    | zero => exact Relation.ReflTransGen.refl
    | succ k ih =>
        refine ih.tail ?_
        have h := Step.submit
          { queue := List.range' 0 k, workers := List.replicate n Phase.idle,
            nextId := k, executed := [], lost := [] }
        simpa [List.range'_concat] using h
  have h0 : satState n 0 =
      { queue := List.range' 0 n, workers := List.replicate n Phase.idle,
        nextId := n, executed := [], lost := [] } := by
    simp [satState]
  rw [h0]
  exact key n

/-- An idle worker sitting between worker segments `A` and `B` takes
the lock (the `lock` step at index `A.length`). -/
theorem step_lock_at {q ex lo : List Nat} {A B : List Phase} {nid m : Nat}
    (hA : A.length = m) (hfreeA : Phase.locked ∉ A) (hfreeB : Phase.locked ∉ B) :
    Step ⟨q, A ++ Phase.idle :: B, nid, ex, lo⟩
      ⟨q, A ++ Phase.locked :: B, nid, ex, lo⟩ := by
  subst hA
  have hw : (A ++ Phase.idle :: B).get? A.length = some Phase.idle := by
    rw [get?_append_len]
    rfl
  have hfree : Phase.locked ∉ A ++ Phase.idle :: B := by
    intro hmem
    rcases List.mem_append.mp hmem with hmem | hmem
    · exact hfreeA hmem
    · rcases List.mem_cons.mp hmem with hmem | hmem
      · cases hmem
      · exact hfreeB hmem
  have h := Step.lock ⟨q, A ++ Phase.idle :: B, nid, ex, lo⟩ A.length hw hfree
  have hs : (A ++ Phase.idle :: B).set A.length Phase.locked =
      A ++ Phase.locked :: B := by
    rw [set_append_len]
    rfl
  rw [hs] at h
  exact h

/-- The lock-holding worker at index `A.length` receives the head of
the queue (the `recv` step): the guard drops and it starts running. -/
theorem step_recv_at {q ex lo : List Nat} {A B : List Phase} {nid m j : Nat}
    (hA : A.length = m) :
    Step ⟨j :: q, A ++ Phase.locked :: B, nid, ex, lo⟩
      ⟨q, A ++ Phase.running j :: B, nid, ex, lo⟩ := by
  subst hA
  have hw : (A ++ Phase.locked :: B).get? A.length = some Phase.locked := by
    rw [get?_append_len]
    rfl
  have h := Step.recv ⟨j :: q, A ++ Phase.locked :: B, nid, ex, lo⟩
    A.length j q hw rfl
  have hs : (A ++ Phase.locked :: B).set A.length (Phase.running j) =
      A ++ Phase.running j :: B := by
    rw [set_append_len]
    rfl
  rw [hs] at h
  exact h

/-- One claim round: worker `m` locks the mutex and receives job `m`. -/
theorem satState_round {n m : Nat} (hm : m < n) :
    Reach (satState n m) (satState n (m+1)) := by
  obtain ⟨k, hk⟩ : ∃ k, n - m = k + 1 := ⟨n - m - 1, by omega⟩
  have hn1 : n - (m + 1) = k := by omega
  have e0 : satState n m =
      ⟨m :: List.range' (m+1) k,
        (List.range m).map (fun i => Phase.running i) ++
          Phase.idle :: List.replicate k Phase.idle, n, [], []⟩ := by
    simp only [satState]
    rw [hk]
    rfl
  have e1 : satState n (m+1) =
      ⟨List.range' (m+1) k,
        (List.range m).map (fun i => Phase.running i) ++
          Phase.running m :: List.replicate k Phase.idle, n, [], []⟩ := by
    simp only [satState]
    rw [hn1, List.range_succ, List.map_append, List.append_assoc]
    rfl
  rw [e0, e1]
  have hlenA : ((List.range m).map (fun i => Phase.running i)).length = m := by
    simp
  have hfreeA : Phase.locked ∉ (List.range m).map (fun i => Phase.running i) := by
    simp
  have hfreeB : Phase.locked ∉ List.replicate k Phase.idle := by
    simp [List.mem_replicate]
  exact (Relation.ReflTransGen.single
    (step_lock_at hlenA hfreeA hfreeB)).tail (step_recv_at hlenA)

/-- After `n` submissions and `n` rounds, all `n` workers run
simultaneously. -/
theorem reach_allRunning (n : Nat) : Reach (Sys.start n) (allRunning n) := by
  have key : ∀ m, m ≤ n → Reach (Sys.start n) (satState n m) := by
    intro m
    induction m with
    | zero => exact fun _ => reach_submits n
    | succ m ih =>
        intro hm
        exact (ih (by omega)).trans (satState_round (by omega))
  have hfin : satState n n = allRunning n := by
    simp [satState, allRunning, Nat.sub_self]
  rw [← hfin]
  exact key n (Nat.le_refl n)

/-! Mutual exclusion on the receive side: at most one worker holds the
`Mutex` at any time. -/

/-- How many workers currently hold the channel mutex. -/
def lockCount (s : Sys) : Nat :=
  s.workers.countP (fun ph => decide (ph = Phase.locked))

theorem lockCount_step {s s' : Sys} (h : Step s s') (hs : lockCount s ≤ 1) :
    lockCount s' ≤ 1 := by
  cases h with
  | submit => exact hs
  | lock w hw hfree =>
      have hzero : lockCount s = 0 := by
        simp only [lockCount, List.countP_eq_zero]
        intro ph hph
        simp only [decide_eq_true_eq]
        intro hlock
        exact hfree (hlock ▸ hph)
      have hset := countP_set (fun ph => decide (ph = Phase.locked)) Phase.locked hw
      simp only [decide_eq_true_eq, reduceCtorEq, if_false, if_true] at hset
      simp only [lockCount] at hzero ⊢
      omega
  | recv w j rest hw hq =>
      have hset := countP_set (fun ph => decide (ph = Phase.locked)) (Phase.running j) hw
      simp only [decide_eq_true_eq, reduceCtorEq, if_false, if_true] at hset
      simp only [lockCount] at hs ⊢
      omega
  | finish w j hw =>
      have hset := countP_set (fun ph => decide (ph = Phase.locked)) Phase.idle hw
      simp only [decide_eq_true_eq, reduceCtorEq, if_false] at hset
      simp only [lockCount] at hs ⊢
      omega
  | crash w j hw =>
      have hset := countP_set (fun ph => decide (ph = Phase.locked)) Phase.crashed hw
      simp only [decide_eq_true_eq, reduceCtorEq, if_false] at hset
      simp only [lockCount] at hs ⊢
      omega

theorem lockCount_start (n : Nat) : lockCount (Sys.start n) = 0 := by
  simp [lockCount, Sys.start, List.countP_eq_zero, List.mem_replicate]

theorem lockCount_reach {n : Nat} {s : Sys} (h : Reach (Sys.start n) s) :
    lockCount s ≤ 1 := by
  induction h with
  | refl => rw [lockCount_start]; omega
  | tail _ step ih => exact lockCount_step step ih

/-! Characterization of successful `handle_connection` runs, and the
fact that everything after the blank line is ignored. -/

theorem handle_ok_iff {fsRead : String → Option String} {writeOk : String → Bool}
    {input : List LineRead} {out : Nat × String} :
    handle_connection fsRead writeOk input = .ok out ↔
      ∃ rl rest, collectRequest input = .ok (rl :: rest) ∧
        out.1 = (classify rl).delaySecs ∧
        send_response fsRead writeOk (classify rl).code (classify rl).reason
          (classify rl).filename = .ok out.2 := by
  unfold handle_connection
  cases hc : collectRequest input with
  | error p => simp
  | ok req =>
      cases req with
      | nil => simp
      | cons rl rest =>
          cases hs : send_response fsRead writeOk (classify rl).code
              (classify rl).reason (classify rl).filename with
          | error p => simp [hs]
          | ok wire =>
              simp only [hs, Except.ok.injEq]
              constructor
              · rintro rfl
                exact ⟨rl, rest, rfl, rfl, hs⟩
              · rintro ⟨rl', rest', heq, h1, h2⟩
                obtain ⟨rfl, rfl⟩ : rl = rl' ∧ rest = rest' := by
                  simpa using heq
                rw [hs] at h2
                obtain ⟨d, w⟩ := out
                simp only [Except.ok.injEq] at h2
                simp only at h1
                rw [Prod.ext_iff]
                exact ⟨h1.symm, by simpa using h2⟩

/-- Lines after the first blank line (the request body) are never
consumed: `take_while` stops at the blank line. -/
theorem collectRequest_ignores_body (pre : List LineRead) (b b' : List LineRead) :
    collectRequest (pre ++ LineRead.line "" :: b) =
      collectRequest (pre ++ LineRead.line "" :: b') := by
  induction pre with
  | nil => rfl
  | cons x xs ih =>
      cases x with
      | ioError => rfl
      | line s =>
          by_cases hs : s = ""
          · simp [collectRequest, hs]
          · simp [collectRequest, hs, ih]

/-- An I/O error among the lines before the blank line panics the
`unwrap` in the collect. -/
theorem collectRequest_error (pre : List LineRead) (rest : List LineRead)
    (hpre : ∀ x ∈ pre, ∃ s, x = LineRead.line s ∧ s ≠ "") :
    collectRequest (pre ++ LineRead.ioError :: rest) = .error .unwrapErr := by
  induction pre with
  | nil => rfl
  | cons x xs ih =>
      have ih' := ih (fun y hy => hpre y (List.mem_cons_of_mem x hy))
      obtain ⟨s, rfl, hs⟩ := hpre x (List.mem_cons_self _ _)
      simp [collectRequest, hs, ih']

/-! The claims. -/

/-- C1: every WorkItem submitted to the pool is delivered to exactly
one Worker and executed exactly once: in every reachable state each
submitted job id occurs exactly once across the queue, the running
workers, the executed list and the crash-lost list (so no two workers
ever take the same item, and nothing completes twice), and while a
live worker remains every queued item is eventually executed along
some continuation of the run. -/
theorem exactly_once_delivery (n : Nat) (s : Sys) (h : Reach (Sys.start n) s) :
    (∀ id, occ s id = if id < s.nextId then 1 else 0) ∧
    (∀ id, runCount s id + s.executed.count id ≤ 1) ∧
    (∀ k id, hasLiveWorker s → s.queue.get? k = some id →
      ∃ s', Reach s s' ∧ id ∈ s'.executed) := by
  refine ⟨jobInv_of_start h, ?_, ?_⟩
  · intro id
    have h1 := jobInv_of_start h id
    simp only [occ] at h1
    split_ifs at h1 <;> omega
  · intro k id hl hq
    exact delivered_of_queued k s id hl hq

/-- Witness for C1 at the freshly constructed pool of one worker. -/
theorem exactly_once_delivery_witness : occ (Sys.start 1) 0 = 0 := by
  have h := (exactly_once_delivery 1 (Sys.start 1) Relation.ReflTransGen.refl).1 0
  simpa [Sys.start] using h

/-- C2 counterexample: a connection whose very first line read fails
with an I/O error makes `handle_connection` panic inside
`result.unwrap()`, and with no containment boundary in the worker loop
the Worker thread crashes — refuting that such an error leaves the
Worker alive and claiming the next item. -/
theorem io_error_crash_cx :
    worker_runs (handle_connection samplePages (fun _ => true) [LineRead.ioError]) =
      WorkerFate.crashed Panic.unwrapErr := rfl

/-- C2 amended: an I/O error while reading the request line or headers,
or while writing the response, panics the WorkItem; absent a
containment boundary the Worker thread executing it crashes; the crash
changes nothing but that worker — the queue, the completed jobs and
every other worker are untouched. -/
theorem io_error_crash :
    (∀ fsRead writeOk pre rest,
      (∀ x ∈ pre, ∃ s, x = LineRead.line s ∧ s ≠ "") →
      worker_runs (handle_connection fsRead writeOk (pre ++ LineRead.ioError :: rest)) =
        WorkerFate.crashed Panic.unwrapErr) ∧
    (∀ fsRead code reason filename body,
      (fsRead : String → Option String) filename = some body →
      worker_runs (send_response fsRead (fun _ => false) code reason filename) =
        WorkerFate.crashed Panic.writeFailed) ∧
    (∀ s w j, s.workers.get? w = some (Phase.running j) →
      ∃ s', Step s s' ∧ s'.workers.get? w = some Phase.crashed ∧
        (∀ v, v ≠ w → s'.workers.get? v = s.workers.get? v) ∧
        s'.queue = s.queue ∧ s'.executed = s.executed) := by
  refine ⟨?_, ?_, ?_⟩
  · intro fsRead writeOk pre rest hpre
    have hc := collectRequest_error pre rest hpre
    simp [handle_connection, hc, worker_runs]
  · intro fsRead code reason filename body hf
    simp [send_response, hf, worker_runs]
  · intro s w j hw
    refine ⟨_, Step.crash s w j hw, get?_set_self Phase.crashed hw, ?_, rfl, rfl⟩
    intro v hv
    exact get?_set_other s.workers w v Phase.crashed (fun he => hv he.symm)

/-- Witness for C2's amended statement: a read error right after a
valid request line crashes the worker. -/
theorem io_error_crash_witness :
    worker_runs (handle_connection samplePages (fun _ => true)
      [LineRead.line "GET / HTTP/1.1", LineRead.ioError]) =
      WorkerFate.crashed Panic.unwrapErr := by
  have h := io_error_crash.1 samplePages (fun _ => true)
    [LineRead.line "GET / HTTP/1.1"] []
    (by
      intro x hx
      simp only [List.mem_singleton] at hx
      exact ⟨"GET / HTTP/1.1", hx, by decide⟩)
  simpa using h

/-- C3 counterexample: a connection that disconnects having sent no
line at all leaves `http_request` empty, so `&http_request[0]` panics
and the Worker crashes — refuting that such a connection leaves the
Worker available for the next WorkItem. -/
theorem empty_request_crash_cx :
    worker_runs (handle_connection samplePages (fun _ => true) []) =
      WorkerFate.crashed Panic.indexOutOfBounds := rfl

/-- C3 amended: whenever the collected request is empty (the client
disconnected before sending any request line), `handle_connection`
panics with the index-out-of-bounds error and the Worker thread
crashes, so it is not available for the next WorkItem. -/
theorem empty_request_crash (fsRead : String → Option String)
    (writeOk : String → Bool) (input : List LineRead)
    (h : collectRequest input = .ok []) :
    handle_connection fsRead writeOk input = .error Panic.indexOutOfBounds ∧
    worker_runs (handle_connection fsRead writeOk input) =
      WorkerFate.crashed Panic.indexOutOfBounds := by
  have h1 : handle_connection fsRead writeOk input = .error Panic.indexOutOfBounds := by
    simp [handle_connection, h]
  exact ⟨h1, by rw [h1]; rfl⟩

/-- Witness for C3's amended statement: a connection consisting of a
lone blank line also collects to the empty request and crashes. -/
theorem empty_request_crash_witness :
    handle_connection samplePages (fun _ => true) [LineRead.line ""] =
      .error Panic.indexOutOfBounds :=
  (empty_request_crash samplePages (fun _ => true) [LineRead.line ""] rfl).1

/-- C4: `ThreadPool::new(0)` fails the `assert!` before the channel or
any worker exists; for every `size ≥ 1` it returns a pool of exactly
`size` workers with pairwise distinct ids assigned at construction,
all of them bound to the receive side of the one channel the pool's
sender feeds. -/
theorem pool_construction :
    ThreadPool.new 0 = .error Panic.assertFailed ∧
    (∀ size, 1 ≤ size → ∃ p, ThreadPool.new size = .ok p ∧
      p.workers.length = size ∧
      (p.workers.map WorkerHandle.id).Nodup ∧
      ∀ w ∈ p.workers, w.receiver = p.senderChannel) := by
  constructor
  · rfl
  · intro size hs
    have hnew : ThreadPool.new size =
        .ok { workers := (List.range size).map
                (fun id => { id := id, receiver := 0 }),
              senderChannel := 0 } := by
      unfold ThreadPool.new
      rw [if_pos (by omega)]
    refine ⟨_, hnew, by simp, ?_, ?_⟩
    · have hmm : (((List.range size).map
          (fun id => ({ id := id, receiver := 0 } : WorkerHandle))).map
            WorkerHandle.id) = List.range size := by
        simp only [List.map_map]
        have hfun : (WorkerHandle.id ∘ fun id : Nat =>
            ({ id := id, receiver := 0 } : WorkerHandle)) = id :=
          funext fun x => rfl
        rw [hfun, List.map_id]
      simp only [hmm]
      exact List.nodup_range size
    · intro w hw
      simp only [List.mem_map] at hw
      obtain ⟨i, _, rfl⟩ := hw
      rfl

/-- Witness for C4 at the size the server uses (`ThreadPool::new(4)`). -/
theorem pool_construction_witness :
    ThreadPool.new 0 = .error Panic.assertFailed ∧
    ∃ p, ThreadPool.new 4 = .ok p ∧ p.workers.length = 4 ∧
      (p.workers.map WorkerHandle.id).Nodup ∧
      ∀ w ∈ p.workers, w.receiver = p.senderChannel :=
  ⟨pool_construction.1, pool_construction.2 4 (by omega)⟩

/-- C5: `execute` hands the job to the channel (appending it in FIFO
position) and returns normally without running it, exactly when the
receive side is alive; it panics (`send(..).unwrap()`) if and only if
the receive side has been destroyed. -/
theorem execute_contract (ch : ChannelState) (job : Nat) :
    (ch.receiverAlive = true →
      ThreadPool.execute ch job = .ok { ch with queue := ch.queue ++ [job] }) ∧
    ((∃ p, ThreadPool.execute ch job = .error p) ↔ ch.receiverAlive = false) := by
  cases hra : ch.receiverAlive with
  | true =>
      constructor
      · intro _
        simp [ThreadPool.execute, hra]
      · simp [ThreadPool.execute, hra]
  | false =>
      constructor
      · intro h
        simp at h
      · simp only [ThreadPool.execute, hra, if_false]
        exact ⟨fun _ => trivial, fun _ => ⟨Panic.sendFailed, rfl⟩⟩

/-- Witness for C5: submitting to a live channel appends the job. -/
theorem execute_contract_witness :
    ThreadPool.execute { queue := [], receiverAlive := true } 7 =
      .ok { queue := [7], receiverAlive := true } := by
  have h := (execute_contract { queue := [], receiverAlive := true } 7).1 rfl
  simpa using h

/-- C6: classification is by exact string match on the request line:
`GET / HTTP/1.1` yields the success reply (200 OK, the success page,
no delay), `GET /sleep HTTP/1.1` the success reply after the fixed
5-second sleep, and every other line the not-found reply (404 NOT
FOUND, the not-found page); a successful connection's output is the
response for its classified request line. -/
theorem request_classification :
    classify "GET / HTTP/1.1" =
      { code := 200, reason := "OK", filename := "hello.html", delaySecs := 0 } ∧
    classify "GET /sleep HTTP/1.1" =
      { code := 200, reason := "OK", filename := "hello.html", delaySecs := 5 } ∧
    (∀ s, s ≠ "GET / HTTP/1.1" → s ≠ "GET /sleep HTTP/1.1" →
      classify s =
        { code := 404, reason := "NOT FOUND", filename := "404.html",
          delaySecs := 0 }) ∧
    (∀ fsRead writeOk rl rest out, rl ≠ "" →
      handle_connection fsRead writeOk
        (LineRead.line rl :: LineRead.line "" :: rest) = .ok out →
      out.1 = (classify rl).delaySecs ∧
      send_response fsRead writeOk (classify rl).code (classify rl).reason
        (classify rl).filename = .ok out.2) := by
  refine ⟨rfl, rfl, ?_, ?_⟩
  · intro s h1 h2
    simp [classify, h1, h2]
  · intro fsRead writeOk rl rest out hrl hok
    have hc : collectRequest (LineRead.line rl :: LineRead.line "" :: rest) =
        .ok [rl] := by
      simp [collectRequest, hrl]
    obtain ⟨rl', rest', heq, h1, h2⟩ := handle_ok_iff.mp hok
    rw [hc] at heq
    obtain ⟨rfl, rfl⟩ : rl = rl' ∧ ([] : List String) = rest' := by
      simpa using heq
    exact ⟨h1, h2⟩

/-- Witness for C6: an unknown request line classifies as 404. -/
theorem request_classification_witness :
    classify "GET /missing HTTP/1.1" =
      { code := 404, reason := "NOT FOUND", filename := "404.html",
        delaySecs := 0 } :=
  request_classification.2.2.1 "GET /missing HTTP/1.1" (by decide) (by decide)

/-- C7: every successfully written response is exactly
`HTTP/1.1 <code> <reason>`, CRLF, `Content-Length: <n>`, CRLF, CRLF,
`<body>`, with the body the page file's contents verbatim and `<n>`
its exact byte length. -/
theorem wire_format (fsRead : String → Option String) (writeOk : String → Bool)
    (code : Nat) (reason : String) (filename : String) (wire : String)
    (h : send_response fsRead writeOk code reason filename = .ok wire) :
    ∃ body, fsRead filename = some body ∧
      wire = "HTTP/1.1 " ++ toString code ++ " " ++ reason ++
        "\x0d\x0aContent-Length: " ++ toString body.utf8ByteSize ++
        "\x0d\x0a\x0d\x0a" ++ body := by
  unfold send_response at h
  cases hf : fsRead filename with
  | none =>
      rw [hf] at h
      simp at h
  | some body =>
      rw [hf] at h
      dsimp only at h
      split at h
      · simp only [Except.ok.injEq] at h
        exact ⟨body, rfl, h.symm⟩
      · simp at h

/-- Witness for C7 at the success page. -/
theorem wire_format_witness :
    ∃ body, samplePages "hello.html" = some body ∧
      "HTTP/1.1 200 OK\x0d\x0aContent-Length: 19\x0d\x0a\x0d\x0a<p>Hi from Rust</p>" =
        "HTTP/1.1 " ++ toString 200 ++ " " ++ "OK" ++ "\x0d\x0aContent-Length: " ++
          toString body.utf8ByteSize ++ "\x0d\x0a\x0d\x0a" ++ body :=
  wire_format samplePages (fun _ => true) 200 "OK" "hello.html"
    "HTTP/1.1 200 OK\x0d\x0aContent-Length: 19\x0d\x0a\x0d\x0a<p>Hi from Rust</p>" rfl

/-- C8: with `n ≥ 1` workers, `n` submitted jobs can all run
simultaneously (the saturation state is reachable, with worker `w`
running job `w` for every `w < n`); never do more than `n` jobs run
concurrently; and while every worker is busy no step lets a queued
item start — the `(n+1)`th job stays queued until some worker
finishes, so a slow job delays nothing but its own worker. -/
theorem pool_saturation (n : Nat) (hn : 1 ≤ n) :
    Reach (Sys.start n) (allRunning n) ∧
    (∀ w, w < n → (allRunning n).workers.get? w = some (Phase.running w)) ∧
    (∀ s, Reach (Sys.start n) s → busyCount s ≤ n) ∧
    (∀ s s', (∀ w ph, s.workers.get? w = some ph → ph.isBusy = true) →
      Step s s' → ∀ id ∈ s.queue, id ∈ s'.queue) := by
  refine ⟨reach_allRunning n, ?_, ?_, ?_⟩
  · intro w hw
    show ((List.range n).map (fun i => Phase.running i)).get? w = _
    rw [List.get?_map, List.get?_range hw]
    rfl
  · intro s hr
    have hlen := workers_length_reach hr
    have hstart : (Sys.start n).workers.length = n := by simp [Sys.start]
    calc busyCount s ≤ s.workers.length := List.countP_le_length Phase.isBusy
      _ = n := by rw [hlen, hstart]
  · intro s s' hbusy hstep id hid
    cases hstep with
    | submit => exact List.mem_append_left _ hid
    | lock w hw hfree =>
        have := hbusy w Phase.idle hw
        simp [Phase.isBusy] at this
    | recv w j rest hw hq =>
        have := hbusy w Phase.locked hw
        simp [Phase.isBusy] at this
    | finish w j hw => exact hid
    | crash w j hw => exact hid

/-- Witness for C8 at pool size 2. -/
theorem pool_saturation_witness : Reach (Sys.start 2) (allRunning 2) :=
  (pool_saturation 2 (by omega)).1

/-- C9: the response is determined solely by the request line: a
successful run's output is the reply classified from the first
collected line, and nothing past the first blank line (where
`take_while` stops) is ever consumed — replacing the body leaves the
whole outcome identical, panics included. -/
theorem response_from_request_line :
    (∀ fsRead writeOk input out,
      handle_connection fsRead writeOk input = .ok out →
      ∃ rl rest, collectRequest input = .ok (rl :: rest) ∧
        out.1 = (classify rl).delaySecs ∧
        send_response fsRead writeOk (classify rl).code (classify rl).reason
          (classify rl).filename = .ok out.2) ∧
    (∀ fsRead writeOk pre b b',
      handle_connection fsRead writeOk (pre ++ LineRead.line "" :: b) =
        handle_connection fsRead writeOk (pre ++ LineRead.line "" :: b')) := by
  constructor
  · intro fsRead writeOk input out hok
    exact handle_ok_iff.mp hok
  · intro fsRead writeOk pre b b'
    unfold handle_connection
    rw [collectRequest_ignores_body pre b b']

/-- Witness for C9: garbage (even an I/O error) after the blank line
changes nothing. -/
theorem response_from_request_line_witness :
    handle_connection samplePages (fun _ => true)
      ([LineRead.line "GET / HTTP/1.1"] ++ LineRead.line "" :: [LineRead.ioError]) =
    handle_connection samplePages (fun _ => true)
      ([LineRead.line "GET / HTTP/1.1"] ++ LineRead.line "" :: []) :=
  response_from_request_line.2 samplePages (fun _ => true)
    [LineRead.line "GET / HTTP/1.1"] [LineRead.ioError] []

/-- C10: the receiver mutex is released before the job is invoked: in
every reachable state at most one worker holds the lock; the `recv`
step hands the lock holder its job and frees the mutex in the same
statement, so the worker starts running with no lock held; and while
one worker runs a job, any idle worker can lock and claim the next
queued item in two steps, the first worker still running. -/
theorem lock_released_before_job (n : Nat) (s : Sys)
    (h : Reach (Sys.start n) s) :
    lockCount s ≤ 1 ∧
    (∀ w j rest, s.workers.get? w = some Phase.locked → s.queue = j :: rest →
      ∃ s', Step s s' ∧ s'.workers.get? w = some (Phase.running j) ∧
        Phase.locked ∉ s'.workers) ∧
    (∀ w jw v j rest, s.workers.get? w = some (Phase.running jw) →
      s.workers.get? v = some Phase.idle → Phase.locked ∉ s.workers →
      s.queue = j :: rest →
      ∃ s₁ s₂, Step s s₁ ∧ Step s₁ s₂ ∧
        s₂.workers.get? v = some (Phase.running j) ∧
        s₂.workers.get? w = some (Phase.running jw)) := by
  have hlc := lockCount_reach h
  refine ⟨hlc, ?_, ?_⟩
  · intro w j rest hw hq
    refine ⟨_, Step.recv s w j rest hw hq,
      get?_set_self (Phase.running j) hw, ?_⟩
    have hset := countP_set (fun ph => decide (ph = Phase.locked))
      (Phase.running j) hw
    simp only [decide_eq_true_eq, reduceCtorEq, if_false, if_true] at hset
    have hzero : (s.workers.set w (Phase.running j)).countP
        (fun ph => decide (ph = Phase.locked)) = 0 := by
      simp only [lockCount] at hlc
      omega
    intro hmem
    have hcontra := List.countP_eq_zero.mp hzero Phase.locked hmem
    simp at hcontra
  · intro w jw v j rest hw hv hfree hq
    have hvw : v ≠ w := by
      intro he
      rw [he, hw] at hv
      simp at hv
    have step1 := Step.lock s v hv hfree
    have hv1 : (s.workers.set v Phase.locked).get? v = some Phase.locked :=
      get?_set_self Phase.locked hv
    have step2 := Step.recv
      { s with workers := s.workers.set v Phase.locked } v j rest hv1 hq
    refine ⟨_, _, step1, step2, get?_set_self (Phase.running j) hv1, ?_⟩
    show (((s.workers.set v Phase.locked)).set v (Phase.running j)).get? w = _
    rw [get?_set_other _ v w _ hvw, get?_set_other _ v w _ hvw]
    exact hw

/-- Witness for C10 at the fresh two-worker pool. -/
theorem lock_released_before_job_witness : lockCount (Sys.start 2) ≤ 1 :=
  (lock_released_before_job 2 (Sys.start 2) Relation.ReflTransGen.refl).1

end Hello
